import Mathlib

/-!
Verification of the request-reliability layer and the concurrent tree crawler
of the ktools kDrive client (`internal/api/client.go`), as a shallow embedding.

The embedding models:
* `doRequest` — the transport: body buffering, the 3-attempt loop with
  429 backoff, the non-429 `>= 400` fail-fast path, and cancellation points;
  HTTP responses are supplied by an oracle `server : Nat → ReqOutcome`
  giving the outcome of each attempt.
* `ListFiles` — cursor-following pagination over a stream of per-page
  fetch/decode outcomes.
* `GetFile` — envelope decoding and the `result == "success"` check.
* `ListFilesRecursiveWithProgress` — the worker-pool crawler, as a labelled
  step function over an explicit state (jobs channel, in-flight worker items,
  results channel, pending counter, accumulator, first error, return value);
  a schedule is a list of actions, covering every interleaving the Go
  runtime can produce (worker picks, channel deliveries, `select` choices,
  cancellation).
-/

namespace Ktools

/-- Error values produced by the client, one constructor per `return nil, err`
site of `client.go` (error strings are abstracted to constructors carrying the
formatted data). -/
inductive ApiErr where
  /-- Error string `"rate limiter: %w"` — `limiter.Wait(ctx)` failed (context cancelled). -/
  | limiterErr
  /-- Error string `"request timeout after 30s: %s %s"`. -/
  | timeout
  /-- Error string `"HTTP request error: %w"` (and the read-error paths). -/
  | httpErr
  /-- Cancellation: `ctx.Err()` returned from a `select` on `ctx.Done()`. -/
  | cancelled
  /-- Error string `"API rate limited (429) after %d retries"`. -/
  | rateLimited (n : Nat)
  /-- Error string `"API error (%d): %s"` — status and raw response body. -/
  | apiError (status : Nat) (body : List Nat)
  /-- Error string `"max retries exceeded"` — the dead fall-through after the loop. -/
  | maxRetriesExceeded
  /-- Error string `"JSON parse error: %w"` — `json.Unmarshal` failed. -/
  | jsonParse
  /-- Error string `"API error: %s"` — decoded envelope whose `result` is not `"success"`. -/
  | resultErr (result : String)
  /-- Model artefact: the response oracle was exhausted (the Go loop would
  keep issuing requests); never produced in any run a theorem talks about. -/
  | noResponse
deriving DecidableEq

/-- An HTTP response as seen after `io.ReadAll(resp.Body)`: status code and
raw body bytes. -/
structure HTTPResponse where
  status : Nat
  body : List Nat
deriving DecidableEq

/-- Outcome of one attempt's `httpClient.Do(req)` + body read. -/
inductive ReqOutcome where
  /-- The request completed with a response. -/
  | resp (r : HTTPResponse)
  /-- Timeout: `reqCtx.Err() == context.DeadlineExceeded` — the 30s per-request timeout. -/
  | timeout
  /-- Any other transport failure (`"HTTP request error"`). -/
  | netErr
deriving DecidableEq

/-- Observable events of one `doRequest` call, in order. -/
inductive Event where
  /-- Event for `io.ReadAll(body)` — the request body is buffered into `bodyBytes`. -/
  | readBody (bytes : List Nat)
  /-- One attempt is sent carrying the given body bytes (`nil` body = `none`). -/
  | send (body : Option (List Nat))
  /-- Event for `time.After(delay)` — a backoff wait of the given number of seconds. -/
  | wait (seconds : Nat)
deriving DecidableEq

/-- Is this event a body read? -/
def Event.isRead : Event → Bool
  | .readBody _ => true
  | _ => false

/-- Is this event a request attempt? -/
def Event.isSend : Event → Bool
  | .send _ => true
  | _ => false

/-- Is this event a backoff wait? -/
def Event.isWait : Event → Bool
  | .wait _ => true
  | _ => false

/-- The constant `maxRetries = 3` of `doRequest`. -/
def maxRetries : Nat := 3

/-- The retry loop of `doRequest` (`for attempt := 0; attempt < maxRetries;
attempt++`).  `fuel` is the number of loop iterations still allowed
(`maxRetries - attempt`); the `fuel = 0` branch is the dead
`"max retries exceeded"` fall-through.  `cancelAtLimiter i` tells whether the
context is already cancelled when attempt `i` waits for a rate-limiter token;
`cancelInBackoff i` tells whether `ctx.Done()` fires during the backoff wait
that follows a 429 on attempt `i`.  Returns the event trace and the result. -/
def doRequestLoop (bodyBytes : Option (List Nat)) (server : Nat → ReqOutcome)
    (cancelAtLimiter cancelInBackoff : Nat → Bool) :
    Nat → Nat → List Event × Except ApiErr (List Nat)
  | 0, _ => ([], .error .maxRetriesExceeded)
  | fuel + 1, attempt =>
    if cancelAtLimiter attempt then ([], .error .limiterErr)
    else
      match server attempt with
      | .timeout => ([.send bodyBytes], .error .timeout)
      | .netErr => ([.send bodyBytes], .error .httpErr)
      | .resp r =>
        if r.status = 429 then
          if attempt < maxRetries - 1 then
            if cancelInBackoff attempt then ([.send bodyBytes], .error .cancelled)
            else
              let rest :=
                doRequestLoop bodyBytes server cancelAtLimiter cancelInBackoff fuel (attempt + 1)
              (.send bodyBytes :: .wait (1 <<< attempt) :: rest.1, rest.2)
          else ([.send bodyBytes], .error (.rateLimited maxRetries))
        else if 400 ≤ r.status then ([.send bodyBytes], .error (.apiError r.status r.body))
        else ([.send bodyBytes], .ok r.body)

/-- The full `doRequest`: buffers the request body once (`io.ReadAll` before the loop),
then runs the retry loop with `maxRetries` iterations starting at attempt 0. -/
def doRequest (body : Option (List Nat)) (server : Nat → ReqOutcome)
    (cancelAtLimiter cancelInBackoff : Nat → Bool) :
    List Event × Except ApiErr (List Nat) :=
  let pre : List Event := match body with
    | none => []
    | some bs => [.readBody bs]
  let run := doRequestLoop body server cancelAtLimiter cancelInBackoff maxRetries 0
  (pre ++ run.1, run.2)

/-- An always-false cancellation oracle: the context is never cancelled. -/
def noCancel : Nat → Bool := fun _ => false

/-- An entry of the remote tree — the `File` struct of `client.go`.  Only the
fields the verified code reads are modelled: `id`, `name` and `type` drive the
crawler (`f.ID`, `f.Name`, `f.Type == "dir"`); the remaining metadata fields
(status, visibility, timestamps, parent, …) are inert payload for every claim
except the size totals.  `size` is modelled from the spec: the spec's Entry
carries a byte size (files only) and `cmd/scan.go` reads `f.Size`, but the
`File` struct in the src snapshot of `client.go` does not declare it. -/
structure File where
  id : Nat
  name : String
  type : String
  size : Nat
deriving DecidableEq

/-- Sum of the sizes of a list of entries (the scan aggregation `totalSize`). -/
def totalSize (fs : List File) : Nat := (fs.map (fun f => f.size)).sum

/-- The decoded `ListFilesResponse` envelope: `result`, `data`, pagination
`cursor` and `has_more`.  (`response_at` is inert and omitted.) -/
structure ListFilesResponse where
  result : String
  data : List File
  cursor : String
  hasMore : Bool
deriving DecidableEq

/-- Outcome of one page iteration of `ListFiles` as seen after `doRequest` and
`json.Unmarshal`: the transport failed, the body did not decode, or a decoded
envelope. -/
inductive FetchOutcome where
  /-- Case: `doRequest` returned an error. -/
  | fail (e : ApiErr)
  /-- Case: `json.Unmarshal` failed on the body. -/
  | undecodable
  /-- A decoded envelope. -/
  | page (r : ListFilesResponse)
deriving DecidableEq

/-- The per-page request path: `path` for the first page, and
`fmt.Sprintf("%s?cursor=%s", path, cursor)` once a cursor was issued. -/
def reqPath (path cursor : String) : String :=
  if cursor = "" then path else path ++ "?cursor=" ++ cursor

/-- Path format `"/3/drive/%d/files/%d/files"` built by `ListFiles`. -/
def listFilesPath (driveID fileID : Nat) : String :=
  "/3/drive/" ++ toString driveID ++ "/files/" ++ toString fileID ++ "/files"

/-- The `for {}` pagination loop of `ListFiles`.  The oracle list carries the
fetch/decode outcome of each successive page request; the loop consumes it in
order, so recursion is structural.  Returns the list of request paths issued
(in order) and the final result.  An exhausted oracle yields the
`ApiErr.noResponse` artefact (the Go loop would issue another request). -/
def listFilesLoop (path : String) :
    List FetchOutcome → String → List File → List String × Except ApiErr (List File)
  | [], cursor, _ => ([reqPath path cursor], .error .noResponse)
  | o :: rest, cursor, allFiles =>
    let p := reqPath path cursor
    match o with
    | .fail e => ([p], .error e)
    | .undecodable => ([p], .error .jsonParse)
    | .page r =>
      if r.result ≠ "success" then ([p], .error (.resultErr r.result))
      else
        if r.hasMore then
          let next := listFilesLoop path rest r.cursor (allFiles ++ r.data)
          (p :: next.1, next.2)
        else ([p], .ok (allFiles ++ r.data))

/-- Entry point `ListFiles`: start with an empty accumulator and an empty cursor. -/
def ListFiles (path : String) (pages : List FetchOutcome) :
    List String × Except ApiErr (List File) :=
  listFilesLoop path pages ("") []

/-- The request paths a well-formed page sequence makes the loop issue: one
per page, the first with the starting cursor, each following page with the
cursor declared by its predecessor. -/
def cursorTrace (path : String) : String → List ListFilesResponse → List String
  | _, [] => []
  | c, r :: rest => reqPath path c :: cursorTrace path r.cursor rest

/-- The cursor in hand after consuming a list of pages. -/
def chainCursor : String → List ListFilesResponse → String
  | c, [] => c
  | _, r :: rest => chainCursor r.cursor rest

/-- Outcome of `GetFile` as seen after `doRequest` and `json.Unmarshal` of the
`APIResponse[File]` envelope. -/
inductive GetFileOutcome where
  /-- Case: `doRequest` returned an error. -/
  | fail (e : ApiErr)
  /-- Case: `json.Unmarshal` failed on the body. -/
  | undecodable
  /-- A decoded envelope: its `result` string and `data` payload. -/
  | envelope (result : String) (data : File)
deriving DecidableEq

/-- Decoding of `GetFile`: propagate the transport error, fail on a decode error, fail
when the envelope's `result` is not `"success"`, otherwise return the data. -/
def GetFile (o : GetFileOutcome) : Except ApiErr File :=
  match o with
  | .fail e => .error e
  | .undecodable => .error .jsonParse
  | .envelope res d => if res ≠ "success" then .error (.resultErr res) else .ok d

/-- The crawler's `job` struct: a directory to list, with its display name. -/
structure Job where
  dirID : Nat
  dirName : String
deriving DecidableEq

/-- The crawler's `result` struct: the listed children, the originating
directory name, and the error if the listing failed (in which case `ListFiles`
returned `nil` files). -/
structure CrawlResult where
  files : List File
  dirName : String
  err : Option ApiErr
deriving DecidableEq

/-- What a worker computes for a job: `files, err := c.ListFiles(ctx, j.dirID)`
packaged as a `result`.  The oracle `listings` abstracts `ListFiles` — one
fixed outcome per directory id, as for an unchanged remote tree. -/
def mkResult (listings : Nat → Except ApiErr (List File)) (j : Job) : CrawlResult :=
  match listings j.dirID with
  | .ok fs => ⟨fs, j.dirName, none⟩
  | .error e => ⟨[], j.dirName, some e⟩

/-- The jobs enqueued for a successful result: one per child of kind `"dir"`,
in listing order (`job{dirID: f.ID, dirName: f.Name}`). -/
def dirChildren (fs : List File) : List Job :=
  (fs.filter (fun f => f.type = "dir")).map (fun f => ⟨f.id, f.name⟩)

instance {ε α : Type} [DecidableEq ε] [DecidableEq α] : DecidableEq (Except ε α) := fun x y =>
  match x, y with
  | .ok a, .ok b => decidable_of_iff (a = b) (by simp)
  | .error e, .error f => decidable_of_iff (e = f) (by simp)
  | .ok _, .error _ => isFalse (by simp)
  | .error _, .ok _ => isFalse (by simp)

/-- One state of the crawler `ListFilesRecursiveWithProgress`:
* `cancelled` — the shared context signal;
* `queue` — the buffered `jobs` channel (FIFO);
* `taken` — jobs a worker has received but not yet passed the pre-listing
  context check (one per busy worker in that phase);
* `ready` — computed results not yet published (one per busy worker in the
  post-listing phase);
* `buf` — the buffered `results` channel (FIFO);
* `pending`, `acc` (`allFiles`), `firstErr` — the control loop's variables;
* `retv` — the crawl's return value once the control loop has returned;
* `jobsClosed` — whether `close(jobs)` has run. -/
structure CrawlState where
  cancelled : Bool
  queue : List Job
  taken : List Job
  ready : List CrawlResult
  buf : List CrawlResult
  pending : Nat
  acc : List File
  firstErr : Option ApiErr
  retv : Option (Except ApiErr (List File))
  jobsClosed : Bool
deriving DecidableEq

/-- The crawl's starting state: `pending = 1` and the root job enqueued
(`jobs <- job{dirID: fileID, dirName: "root"}`). -/
def initState (fileID : Nat) : CrawlState :=
  { cancelled := false, queue := [⟨fileID, "root"⟩], taken := [], ready := [], buf := [],
    pending := 1, acc := [], firstErr := none, retv := none, jobsClosed := false }

/-- One scheduler action of the crawler.  A schedule (list of actions) selects
one interleaving of the workers, the channels, the `select` statements and the
cancellation signal; an action whose guard does not hold leaves the state
unchanged (it is not enabled). -/
inductive Act where
  /-- The shared context is cancelled. -/
  | cancel
  /-- A worker receives the head job of the `jobs` channel (`for j := range jobs`);
  at most `numWorkers` jobs/results can be held by workers at once. -/
  | take
  /-- A worker holding job `i` observes cancellation at the pre-listing check
  (`if ctx.Err() != nil { return }`) and exits, dropping the job. -/
  | dropJob (i : Nat)
  /-- A worker holding job `i` passes the pre-listing check (context not
  cancelled) and runs `c.ListFiles`, producing a result. -/
  | dispatch (i : Nat)
  /-- A worker holding result `i` observes cancellation at the post-listing
  check or in the publishing `select` and exits, dropping the result. -/
  | dropRes (i : Nat)
  /-- A worker holding result `i` passes the post-listing check (context not
  cancelled) and sends it on the `results` channel. -/
  | publish (i : Nat)
  /-- The control loop receives the head result of the `results` channel and
  processes it fully (decrement `pending`; on error record `firstErr`;
  on success append to `allFiles` and enqueue every `"dir"` child). -/
  | recv
  /-- The control loop receives a successful result but `ctx.Done()` fires in
  the enqueueing `select` after `k` children were enqueued (the `k+1`-st was
  counted in `pending` but never sent); the loop returns `ctx.Err()`. -/
  | recvCancel (k : Nat)
  /-- The control loop's outer `select` takes the `ctx.Done()` branch and
  returns `ctx.Err()`. -/
  | loopCancel
  /-- Exit: `pending == 0` — the loop exits, `close(jobs)` runs, and the crawl
  returns `firstErr` if set, else `allFiles`. -/
  | exitLoop
deriving DecidableEq

/-- The constant `numWorkers = 5` of `ListFilesRecursiveWithProgress`.  The step
function takes the pool size `N` as a parameter so that independence from the
pool size is a theorem; the source fixes it to 5. -/
def numWorkers : Nat := 5

/-- One step of the crawler under scheduler action `a`.  Guards mirror the
context checks and channel operations of the source; a disabled action is a
no-op. -/
def crawlStep (listings : Nat → Except ApiErr (List File)) (N : Nat)
    (s : CrawlState) : Act → CrawlState
  | .cancel => { s with cancelled := true }
  | .take =>
    match s.queue with
    | [] => s
    | j :: q =>
      if s.taken.length + s.ready.length < N then
        { s with queue := q, taken := s.taken ++ [j] }
      else s
  | .dropJob i =>
    if s.cancelled ∧ i < s.taken.length then { s with taken := s.taken.eraseIdx i } else s
  | .dispatch i =>
    if s.cancelled then s
    else
      match s.taken[i]? with
      | none => s
      | some j => { s with taken := s.taken.eraseIdx i,
                           ready := s.ready ++ [mkResult listings j] }
  | .dropRes i =>
    if s.cancelled ∧ i < s.ready.length then { s with ready := s.ready.eraseIdx i } else s
  | .publish i =>
    if s.cancelled then s
    else
      match s.ready[i]? with
      | none => s
      | some r => { s with ready := s.ready.eraseIdx i, buf := s.buf ++ [r] }
  | .recv =>
    if s.retv = none ∧ 0 < s.pending then
      match s.buf with
      | [] => s
      | r :: b =>
        match r.err with
        | some e =>
          { s with buf := b, pending := s.pending - 1,
                   firstErr := match s.firstErr with
                     | some e0 => some e0
                     | none => some e }
        | none =>
          let cs := dirChildren r.files
          { s with buf := b, pending := s.pending - 1 + cs.length,
                   acc := s.acc ++ r.files, queue := s.queue ++ cs }
    else s
  | .recvCancel k =>
    if s.cancelled ∧ s.retv = none ∧ 0 < s.pending then
      match s.buf with
      | [] => s
      | r :: b =>
        match r.err with
        | some _ => s
        | none =>
          let cs := dirChildren r.files
          if k < cs.length then
            { s with buf := b, pending := s.pending - 1 + (k + 1),
                     acc := s.acc ++ r.files, queue := s.queue ++ cs.take k,
                     retv := some (.error .cancelled) }
          else s
    else s
  | .loopCancel =>
    if s.cancelled ∧ s.retv = none ∧ 0 < s.pending then
      { s with retv := some (.error .cancelled) }
    else s
  | .exitLoop =>
    if s.retv = none ∧ s.pending = 0 then
      { s with jobsClosed := true,
               retv := some (match s.firstErr with
                 | some e => .error e
                 | none => .ok s.acc) }
    else s

/-- Run the crawler under a schedule. -/
def crawlRun (listings : Nat → Except ApiErr (List File)) (N : Nat) :
    CrawlState → List Act → CrawlState
  | s, [] => s
  | s, a :: acts => crawlRun listings N (crawlStep listings N s a) acts

/-- The sequential reference: list a directory, then recursively list each
`"dir"` child, flattening in order.  `fuel` bounds the depth; on an acyclic
tree any fuel above the root's depth gives the full listing. -/
def seqList (listings : Nat → List File) : Nat → Nat → List File
  | 0, _ => []
  | fuel + 1, d =>
    let fs := listings d
    fs ++ (fs.filter (fun f => f.type = "dir")).flatMap (fun f => seqList listings fuel f.id)

/-- The sequential listing of the whole subtree under `d`, with enough fuel
for its depth: `m` is a depth measure witnessing acyclicity (every `"dir"`
child has a strictly smaller measure than its parent). -/
def subtreeList (listings : Nat → List File) (m : Nat → Nat) (d : Nat) : List File :=
  seqList listings (m d + 1) d

/-- The multiset of entries still to be produced by a list of outstanding
jobs: the full subtree listing of each job's directory. -/
def jobsMass (listings : Nat → List File) (m : Nat → Nat) (js : List Job) : Multiset File :=
  (js.map (fun j => ((subtreeList listings m j.dirID : List File) : Multiset File))).sum

/-- The multiset of entries still to be produced by a list of in-flight
results: each result's own files plus the subtrees of its `"dir"` children. -/
def resMass (listings : Nat → List File) (m : Nat → Nat) (rs : List CrawlResult) :
    Multiset File :=
  (rs.map (fun r => ((r.files : Multiset File) + jobsMass listings m (dirChildren r.files)))).sum

/-- The entries a crawl state accounts for: accumulated output plus the
future contribution of every outstanding job and in-flight result. -/
def crawlMass (listings : Nat → List File) (m : Nat → Nat) (s : CrawlState) : Multiset File :=
  (s.acc : Multiset File) + jobsMass listings m (s.queue ++ s.taken)
    + resMass listings m (s.ready ++ s.buf)

/-- The pending-counter invariant: `pending` equals the number of
enqueued-but-not-yet-consumed jobs (`queue`, `taken`) plus in-flight results
(`ready`, `buf`). -/
def counterInv (s : CrawlState) : Prop :=
  s.pending = s.queue.length + s.taken.length + s.ready.length + s.buf.length

/-- The invariant of an error-free, uncancelled crawl of the tree `listings`
rooted at `root` (with acyclicity measure `m`): counter accounting, entry
accounting, no error anywhere, and a correct return value if set. -/
structure SeqInv (listings : Nat → List File) (m : Nat → Nat) (root : Nat)
    (s : CrawlState) : Prop where
  counter : counterInv s
  mass : crawlMass listings m s = ((subtreeList listings m root : List File) : Multiset File)
  errs : ∀ r ∈ s.ready ++ s.buf, r.err = none
  ferr : s.firstErr = none
  notCancelled : s.cancelled = false
  ret : ∀ v, s.retv = some v →
    ∃ out, v = .ok out ∧
      ((out : List File) : Multiset File) =
        ((subtreeList listings m root : List File) : Multiset File)

/-- The fail-fast invariant of an uncancelled crawl: once a first error is
recorded, a set return value is exactly that error (never a partial list). -/
def FirstErrInv (s : CrawlState) : Prop :=
  s.cancelled = false ∧
    ∀ v e, s.retv = some v → s.firstErr = some e → v = .error e

/-- The return-value invariant (any schedule, cancellation included): a set
return value is either the cancellation error or was produced by the normal
loop exit, which requires the pending counter to have reached zero. -/
def RetvInv (s : CrawlState) : Prop :=
  ∀ v, s.retv = some v → v = .error .cancelled ∨ s.pending = 0

/-- Directory A of the spec's concrete scenario (id 10). -/
def fileA : File := ⟨10, "A", "dir", 0⟩

/-- File B of the spec's concrete scenario (id 11, size 500). -/
def fileB : File := ⟨11, "B", "file", 500⟩

/-- File C of the spec's concrete scenario (id 12, size 1500). -/
def fileC : File := ⟨12, "C", "file", 1500⟩

/-- The spec's concrete tree: the root (id 1) lists directory A and file B;
A lists file C. -/
def listingsABC : Nat → List File := fun d =>
  if d = 1 then [fileA, fileB] else if d = 10 then [fileC] else []

/-- A depth measure for `listingsABC`. -/
def measureABC : Nat → Nat := fun d => if d = 1 then 1 else 0

/-- A schedule that completes the `listingsABC` crawl with a single busy
worker at a time (valid for every pool size `N ≥ 1`). -/
def actsABC : List Act :=
  [.take, .dispatch 0, .publish 0, .recv, .take, .dispatch 0, .publish 0, .recv, .exitLoop]

/-- The `i`-th subdirectory of the fail-fast scenario (ids 10–18). -/
def subdirFile (i : Nat) : File := ⟨10 + i, "sub", "dir", 0⟩

/-- The fail-fast scenario: the root lists 9 subdirectories and the listing
of subdirectory #7 (id 16) fails with an APIError. -/
def listingsFailFast : Nat → Except ApiErr (List File) := fun d =>
  if d = 1 then .ok ((List.range 9).map subdirFile)
  else if d = 16 then .error (.apiError 500 [66])
  else .ok []

/-- A completing schedule for the fail-fast scenario: the root job, then the
9 subdirectory jobs one at a time, then the loop exit. -/
def actsFailFast : List Act :=
  [.take, .dispatch 0, .publish 0, .recv] ++
    (List.range 9).flatMap (fun _ => [.take, .dispatch 0, .publish 0, .recv]) ++ [.exitLoop]

/-- A one-file tree for the cancellation counterexample: the root lists only
file B. -/
def listingsOnlyB : Nat → Except ApiErr (List File) := fun d =>
  if d = 1 then .ok [fileB] else .ok []

/-- The cancellation counterexample schedule: the root's result is already in
the results channel when the context is cancelled; the control loop's
`select` then takes the `results` branch, drains to `pending = 0` and
returns the files. -/
def actsCancelRace : List Act := [.take, .dispatch 0, .publish 0, .cancel, .recv, .exitLoop]

/-- A server that answers 429 on every attempt. -/
def server429 : Nat → ReqOutcome := fun _ => .resp ⟨429, [7]⟩

/-- A server that answers 429 twice, then 200 with body `[1, 2]`. -/
def serverRecover : Nat → ReqOutcome := fun i =>
  if i < 2 then .resp ⟨429, []⟩ else .resp ⟨200, [1, 2]⟩

/-- A server that answers 429 once, then 503 with body `[4]`. -/
def serverApiErr : Nat → ReqOutcome := fun i =>
  if i = 0 then .resp ⟨429, []⟩ else .resp ⟨503, [4]⟩

/-- First page of the pagination witness: 2 entries, more to come. -/
def pageOne : ListFilesResponse := ⟨"success", [fileB, fileC], "cur1", true⟩

/-- Second page of the pagination witness: 1 entry, last page. -/
def pageTwo : ListFilesResponse := ⟨"success", [fileA], "", false⟩

/-- Every event emitted by the retry loop is a wait or a send, and every send
carries exactly the buffered body bytes; in particular the loop never reads
the request body again. -/
lemma doRequestLoop_events (b : Option (List Nat)) (s : Nat → ReqOutcome)
    (cL cB : Nat → Bool) :
    ∀ fuel attempt e, e ∈ (doRequestLoop b s cL cB fuel attempt).1 →
      e.isRead = false ∧ (e.isSend = true → e = .send b) := by
  intro fuel
  induction fuel with
  | zero =>
    intro attempt e he
    simp [doRequestLoop] at he
  | succ n ih =>
    intro attempt e he
    rw [doRequestLoop] at he
    split at he
    · simp at he
    · split at he
      · simp at he
        subst he
        exact ⟨rfl, fun _ => rfl⟩
      · simp at he
        subst he
        exact ⟨rfl, fun _ => rfl⟩
      · split at he
        · split at he
          · split at he
            · simp at he
              subst he
              exact ⟨rfl, fun _ => rfl⟩
            · simp only [List.mem_cons] at he
              rcases he with he | he | he
              · subst he
                exact ⟨rfl, fun _ => rfl⟩
              · subst he
                exact ⟨rfl, fun h => by simp [Event.isSend] at h⟩
              · exact ih _ e he
          · simp at he
            subst he
            exact ⟨rfl, fun _ => rfl⟩
        · split at he <;>
          · simp at he
            subst he
            exact ⟨rfl, fun _ => rfl⟩

/-- Claim C5: `doRequest` retries an HTTP 429 up to 2 additional times with
doubling backoff waits (1s then 2s), honours cancellation during the waits,
and after exhaustion fails with the RateLimited error naming the retry
constant: a server answering 429 on every attempt yields
`rateLimited maxRetries` after exactly 3 send attempts with waits `[1s, 2s]`,
a server answering 429 twice then 200 succeeds with the same two waits
(total `≥ 1s + 2s`), and a cancellation firing during the first backoff wait
aborts with the context's cancellation error. -/
theorem doRequest_rate_limit_retry
    (body : Option (List Nat)) (server serverOK : Nat → ReqOutcome)
    (b0 b1 : List Nat) (r2 : HTTPResponse)
    (h429 : ∀ i, ∃ b, server i = .resp ⟨429, b⟩)
    (hOK0 : serverOK 0 = .resp ⟨429, b0⟩) (hOK1 : serverOK 1 = .resp ⟨429, b1⟩)
    (hOK2 : serverOK 2 = .resp r2) (hst : r2.status = 200) :
    ((doRequest body server noCancel noCancel).2 = .error (.rateLimited 3) ∧
      ((doRequest body server noCancel noCancel).1.filter Event.isSend).length = 3 ∧
      (doRequest body server noCancel noCancel).1.filter Event.isWait =
        [.wait 1, .wait 2]) ∧
    ((doRequest body serverOK noCancel noCancel).2 = .ok r2.body ∧
      (doRequest body serverOK noCancel noCancel).1.filter Event.isWait =
        [.wait 1, .wait 2] ∧
      ((doRequest body serverOK noCancel noCancel).1.filter Event.isSend).length = 3) ∧
    (doRequest body server noCancel (fun i => i == 0)).2 = .error .cancelled := by
  obtain ⟨c0, h0⟩ := h429 0
  obtain ⟨c1, h1⟩ := h429 1
  obtain ⟨c2, h2⟩ := h429 2
  cases body <;>
    simp [doRequest, doRequestLoop, h0, h1, h2, hOK0, hOK1, hOK2, hst, noCancel, maxRetries,
      Event.isSend, Event.isWait]

/-- Witness for C5 at concrete servers: exhaustion, recovery after two 429s,
and cancellation during the first wait. -/
theorem doRequest_rate_limit_retry_witness :
    (doRequest none server429 noCancel noCancel).2 = .error (.rateLimited 3) ∧
    (doRequest none serverRecover noCancel noCancel).2 = .ok [1, 2] ∧
    (doRequest none server429 noCancel (fun i => i == 0)).2 = .error .cancelled := by
  obtain ⟨ha, hb, hc⟩ := doRequest_rate_limit_retry none server429 serverRecover [] []
    ⟨200, [1, 2]⟩ (fun i => ⟨[7], rfl⟩) rfl rfl rfl rfl
  exact ⟨ha.1, hb.1, hc⟩

/-- Claim C8: an attempt that receives a status `≥ 400` other than 429 makes
`doRequest` fail immediately with the APIError carrying that status and raw
body: if the first `i` attempts got 429 (`i < maxRetries`) and attempt `i`
gets such a status, the call returns the APIError after exactly `i + 1` send
attempts — no further retry. -/
theorem doRequest_api_error_no_retry
    (body : Option (List Nat)) (server : Nat → ReqOutcome) (i : Nat) (r : HTTPResponse)
    (hpre : ∀ j, j < i → ∃ b, server j = .resp ⟨429, b⟩)
    (hi : server i = .resp r) (h400 : 400 ≤ r.status) (hne : r.status ≠ 429)
    (hlt : i < maxRetries) :
    (doRequest body server noCancel noCancel).2 = .error (.apiError r.status r.body) ∧
    ((doRequest body server noCancel noCancel).1.filter Event.isSend).length = i + 1 := by
  have hlt3 : i < 3 := hlt
  interval_cases i
  · cases body <;>
      simp [doRequest, doRequestLoop, hi, hne, h400, noCancel, maxRetries,
        Event.isSend, Event.isWait]
  · obtain ⟨b0, h0⟩ := hpre 0 (by omega)
    cases body <;>
      simp [doRequest, doRequestLoop, h0, hi, hne, h400, noCancel, maxRetries,
        Event.isSend, Event.isWait]
  · obtain ⟨b0, h0⟩ := hpre 0 (by omega)
    obtain ⟨b1, h1⟩ := hpre 1 (by omega)
    cases body <;>
      simp [doRequest, doRequestLoop, h0, h1, hi, hne, h400, noCancel, maxRetries,
        Event.isSend, Event.isWait]

/-- Witness for C8: a 429 then a 503 yields the APIError after 2 attempts. -/
theorem doRequest_api_error_no_retry_witness :
    (doRequest none serverApiErr noCancel noCancel).2 = .error (.apiError 503 [4]) ∧
    ((doRequest none serverApiErr noCancel noCancel).1.filter Event.isSend).length = 2 :=
  doRequest_api_error_no_retry none serverApiErr 1 ⟨503, [4]⟩
    (fun j hj => by interval_cases j; exact ⟨[], rfl⟩) rfl (by decide) (by decide) (by decide)

/-- Claim C9: with a non-nil request body, `doRequest` reads and buffers the
body exactly once, before the first attempt, and every attempt (retries after
a 429 included) sends exactly the buffered byte sequence. -/
theorem doRequest_body_buffered_once (bs : List Nat) (server : Nat → ReqOutcome)
    (cL cB : Nat → Bool) :
    (doRequest (some bs) server cL cB).1.head? = some (.readBody bs) ∧
    ((doRequest (some bs) server cL cB).1.filter Event.isRead).length = 1 ∧
    ∀ e ∈ (doRequest (some bs) server cL cB).1, e.isSend = true → e = .send (some bs) := by
  have hev := doRequestLoop_events (some bs) server cL cB maxRetries 0
  refine ⟨by simp [doRequest], ?_, ?_⟩
  · have hnil : (doRequestLoop (some bs) server cL cB maxRetries 0).1.filter
        Event.isRead = [] := by
      rw [List.filter_eq_nil_iff]
      intro e he
      simp [(hev e he).1]
    simp [doRequest, List.filter_append, hnil, Event.isRead]
  · intro e he hs
    simp only [doRequest, List.mem_append, List.mem_singleton] at he
    rcases he with he | he
    · subst he
      simp [Event.isSend] at hs
    · exact (hev e he).2 hs

/-- Witness for C9: with body bytes `[9]` against the recovering server, the
trace starts with the single body read. -/
theorem doRequest_body_buffered_once_witness :
    (doRequest (some [9]) serverRecover noCancel noCancel).1.head? =
      some (.readBody [9]) ∧
    ((doRequest (some [9]) serverRecover noCancel noCancel).1.filter
      Event.isRead).length = 1 :=
  ⟨(doRequest_body_buffered_once [9] serverRecover noCancel noCancel).1,
    (doRequest_body_buffered_once [9] serverRecover noCancel noCancel).2.1⟩

/-- Consuming a run of successful `has_more` pages: the loop issues their
cursor-chained requests, accumulates their data in order, and continues on
the remaining outcomes with the last declared cursor. -/
lemma listFilesLoop_goodPrefix (path : String) :
    ∀ ps : List ListFilesResponse,
      (∀ p ∈ ps, p.result = "success" ∧ p.hasMore = true) →
      ∀ (rest : List FetchOutcome) (cursor : String) (acc : List File),
      listFilesLoop path (ps.map FetchOutcome.page ++ rest) cursor acc =
        (cursorTrace path cursor ps ++
            (listFilesLoop path rest (chainCursor cursor ps)
              (acc ++ ps.flatMap (fun p => p.data))).1,
          (listFilesLoop path rest (chainCursor cursor ps)
            (acc ++ ps.flatMap (fun p => p.data))).2) := by
  intro ps
  induction ps with
  | nil =>
    intro _ rest cursor acc
    simp [cursorTrace, chainCursor]
  | cons p ps ih =>
    intro hps rest cursor acc
    obtain ⟨hres, hmore⟩ := hps p (by simp)
    have ih' := ih (fun q hq => hps q (by simp [hq])) rest p.cursor (acc ++ p.data)
    simp only [List.map_cons, List.cons_append, listFilesLoop, hres, hmore,
      cursorTrace, chainCursor, List.flatMap_cons, List.append_assoc]
    simp [ih', ← List.append_assoc]

/-- The loop issues one request per page. -/
lemma cursorTrace_length (path : String) :
    ∀ (ps : List ListFilesResponse) (c : String), (cursorTrace path c ps).length = ps.length := by
  intro ps
  induction ps with
  | nil => intro c; rfl
  | cons p ps ih => intro c; simp [cursorTrace, ih]

/-- The request trace of `ps` followed by one more page: the extra request
carries the cursor declared after `ps`. -/
lemma cursorTrace_append_single (path : String) :
    ∀ (ps : List ListFilesResponse) (c : String) (last : ListFilesResponse),
      cursorTrace path c (ps ++ [last]) =
        cursorTrace path c ps ++ [reqPath path (chainCursor c ps)] := by
  intro ps
  induction ps with
  | nil => intro c last; simp [cursorTrace, chainCursor]
  | cons p ps ih => intro c last; simp [cursorTrace, chainCursor, ih]

/-- Claim C6: for a directory whose server pages are `ps ++ [last]` (each
declaring `has_more` except the last, all successful), `ListFiles` issues one
transport call per page following the server-issued cursors, and returns the
concatenation of all pages' data in server order — no deduplication, no
omission. -/
theorem listFiles_pagination (path : String) (ps : List ListFilesResponse)
    (last : ListFilesResponse)
    (hps : ∀ p ∈ ps, p.result = "success" ∧ p.hasMore = true)
    (hres : last.result = "success") (hmore : last.hasMore = false) :
    ListFiles path ((ps ++ [last]).map FetchOutcome.page) =
      (cursorTrace path ("") (ps ++ [last]),
        .ok ((ps ++ [last]).flatMap (fun p => p.data))) ∧
    (cursorTrace path ("") (ps ++ [last])).length = ps.length + 1 := by
  constructor
  · rw [ListFiles, List.map_append, listFilesLoop_goodPrefix path ps hps]
    simp [listFilesLoop, hres, hmore, cursorTrace_append_single, List.flatMap_append,
      cursorTrace]
  · simp [cursorTrace_length]

/-- Witness for C6: 3 entries split over 2 pages are reconstructed exactly,
with the second request following the first page's cursor. -/
theorem listFiles_pagination_witness :
    (ListFiles ("/3/drive/1/files/1/files") ([pageOne, pageTwo].map FetchOutcome.page) =
        (cursorTrace ("/3/drive/1/files/1/files") ("") [pageOne, pageTwo],
          .ok ([pageOne, pageTwo].flatMap (fun p => p.data))) ∧
      (cursorTrace ("/3/drive/1/files/1/files") ("") [pageOne, pageTwo]).length = 2) ∧
    [pageOne, pageTwo].flatMap (fun p => p.data) = [fileB, fileC, fileA] ∧
    cursorTrace ("/3/drive/1/files/1/files") ("") [pageOne, pageTwo] =
      ["/3/drive/1/files/1/files", "/3/drive/1/files/1/files?cursor=cur1"] :=
  ⟨listFiles_pagination ("/3/drive/1/files/1/files") [pageOne] pageTwo
      (by simp [pageOne]) rfl rfl,
    rfl, rfl⟩

/-- Claim C7: if any page request of a listing fails, `ListFiles` aborts with
that error; the pages accumulated before it are discarded — the caller gets
the bare error, never a partial entry list. -/
theorem listFiles_fail_fast (path : String) (ps : List ListFilesResponse)
    (hps : ∀ p ∈ ps, p.result = "success" ∧ p.hasMore = true)
    (e : ApiErr) (rest : List FetchOutcome) :
    (ListFiles path (ps.map FetchOutcome.page ++ .fail e :: rest)).2 = .error e := by
  rw [ListFiles, listFilesLoop_goodPrefix path ps hps]
  simp [listFilesLoop]

/-- Witness for C7: the second page times out; the two entries of the first
page are not returned. -/
theorem listFiles_fail_fast_witness :
    (ListFiles ("/3/drive/1/files/1/files")
        ([pageOne].map FetchOutcome.page ++ .fail .timeout :: [])).2 = .error .timeout :=
  listFiles_fail_fast ("/3/drive/1/files/1/files") [pageOne] (by simp [pageOne]) .timeout []

/-- Claim C10: even when the transport succeeds, `GetFile` and `ListFiles`
return an error and no data whenever the response body fails to decode as the
expected JSON envelope, or the decoded envelope's `result` field is not
`"success"` — for `ListFiles`, on whichever page this first happens after a
run of good pages. -/
theorem decode_failure_errors (path : String) (ps : List ListFilesResponse)
    (hps : ∀ p ∈ ps, p.result = "success" ∧ p.hasMore = true)
    (rest : List FetchOutcome) (bad : ListFilesResponse)
    (hbad : bad.result ≠ "success") :
    (GetFile .undecodable = .error .jsonParse) ∧
    (∀ res d, res ≠ "success" → GetFile (.envelope res d) = .error (.resultErr res)) ∧
    (ListFiles path (ps.map FetchOutcome.page ++ .undecodable :: rest)).2 =
      .error .jsonParse ∧
    (ListFiles path (ps.map FetchOutcome.page ++ .page bad :: rest)).2 =
      .error (.resultErr bad.result) := by
  refine ⟨rfl, fun res d hres => by simp [GetFile, hres], ?_, ?_⟩
  · rw [ListFiles, listFilesLoop_goodPrefix path ps hps]
    simp [listFilesLoop]
  · rw [ListFiles, listFilesLoop_goodPrefix path ps hps]
    simp [listFilesLoop, hbad]

/-- Witness for C10: an undecodable second page and a `result = "error"`
envelope each abort with the matching error. -/
theorem decode_failure_errors_witness :
    (GetFile .undecodable = .error .jsonParse) ∧
    (GetFile (.envelope ("error") fileA) = .error (.resultErr ("error"))) ∧
    (ListFiles ("/3/drive/1/files/1/files")
        ([pageOne].map FetchOutcome.page ++ .undecodable :: [])).2 = .error .jsonParse ∧
    (ListFiles ("/3/drive/1/files/1/files")
        ([pageOne].map FetchOutcome.page ++
          .page ⟨"error", [], "", false⟩ :: [])).2 = .error (.resultErr ("error")) := by
  obtain ⟨h1, h2, h3, h4⟩ := decode_failure_errors ("/3/drive/1/files/1/files") [pageOne]
    (by simp [pageOne]) [] ⟨"error", [], "", false⟩ (by decide)
  exact ⟨h1, h2 ("error") fileA (by decide), h3, h4⟩

/-- Only the `cancel` action sets the cancellation flag. -/
lemma crawlStep_cancelled (L : Nat → Except ApiErr (List File)) (N : Nat)
    (s : CrawlState) (a : Act) (ha : a ≠ .cancel) :
    (crawlStep L N s a).cancelled = s.cancelled := by
  cases a
  case cancel => exact absurd rfl ha
  all_goals
    simp only [crawlStep]
    repeat' split
    all_goals rfl

/-- A schedule without the cancellation action leaves the flag unset. -/
lemma crawlRun_cancelled (L : Nat → Except ApiErr (List File)) (N : Nat) :
    ∀ (acts : List Act) (s : CrawlState), Act.cancel ∉ acts →
      (crawlRun L N s acts).cancelled = s.cancelled := by
  intro acts
  induction acts with
  | nil => intro s _; rfl
  | cons a acts ih =>
    intro s h
    rw [crawlRun, ih _ (fun hmem => h (by simp [hmem])),
      crawlStep_cancelled L N s a (fun he => h (by simp [he]))]

/-- In an uncancelled state, the four cancellation-only actions are disabled. -/
lemma crawlStep_noCancel_noops (L : Nat → Except ApiErr (List File)) (N : Nat)
    (s : CrawlState) (hc : s.cancelled = false) :
    (∀ i, crawlStep L N s (.dropJob i) = s) ∧
    (∀ i, crawlStep L N s (.dropRes i) = s) ∧
    (∀ k, crawlStep L N s (.recvCancel k) = s) ∧
    crawlStep L N s .loopCancel = s := by
  refine ⟨fun i => ?_, fun i => ?_, fun k => ?_, ?_⟩ <;> simp [crawlStep, hc]

/-- The pending-counter invariant is preserved by every uncancelled step. -/
lemma counterInv_step (L : Nat → Except ApiErr (List File)) (N : Nat)
    (s : CrawlState) (a : Act) (hc : s.cancelled = false) (ha : a ≠ .cancel)
    (h : counterInv s) : counterInv (crawlStep L N s a) := by
  obtain ⟨hdj, hdr, hrc, hlc⟩ := crawlStep_noCancel_noops L N s hc
  cases a
  case cancel => exact absurd rfl ha
  case dropJob i => rw [hdj]; exact h
  case dropRes i => rw [hdr]; exact h
  case recvCancel k => rw [hrc]; exact h
  case loopCancel => rw [hlc]; exact h
  case take =>
    unfold counterInv at h ⊢
    simp only [crawlStep]
    split
    · exact h
    · rename_i j q hq
      split
      · rw [hq] at h
        simp only [List.length_cons] at h
        simp only [List.length_append, List.length_cons, List.length_nil]
        omega
      · exact h
  case dispatch i =>
    unfold counterInv at h ⊢
    simp only [crawlStep, hc]
    simp only [Bool.false_eq_true, if_false]
    split
    · exact h
    · rename_i j hj
      have hi : i < s.taken.length := (List.getElem?_eq_some.mp hj).1
      simp only [List.length_append, List.length_cons, List.length_eraseIdx, hi, if_true,
        List.length_nil]
      omega
  case publish i =>
    unfold counterInv at h ⊢
    simp only [crawlStep, hc]
    simp only [Bool.false_eq_true, if_false]
    split
    · exact h
    · rename_i r hr
      have hi : i < s.ready.length := (List.getElem?_eq_some.mp hr).1
      simp only [List.length_append, List.length_cons, List.length_eraseIdx, hi, if_true,
        List.length_nil]
      omega
  case recv =>
    unfold counterInv at h ⊢
    simp only [crawlStep]
    split
    · rename_i hg
      split
      · exact h
      · rename_i r b hb
        rw [hb] at h
        simp only [List.length_cons] at h
        split
        · simp only []
          omega
        · simp only [List.length_append]
          omega
    · exact h
  case exitLoop =>
    unfold counterInv at h ⊢
    simp only [crawlStep]
    split
    · exact h
    · exact h

/-- The pending-counter invariant is preserved by every cancellation-free
schedule, and the flag stays unset. -/
lemma counterInv_run (L : Nat → Except ApiErr (List File)) (N : Nat) :
    ∀ (acts : List Act) (s : CrawlState), Act.cancel ∉ acts → s.cancelled = false →
      counterInv s → counterInv (crawlRun L N s acts) := by
  intro acts
  induction acts with
  | nil => intro s _ _ h; exact h
  | cons a acts ih =>
    intro s hnc hc h
    have ha : a ≠ .cancel := fun he => hnc (by simp [he])
    rw [crawlRun]
    exact ih _ (fun hmem => hnc (by simp [hmem]))
      (by rw [crawlStep_cancelled L N s a ha]; exact hc)
      (counterInv_step L N s a hc ha h)

/-- Claim C3: the crawler's pending counter starts at 1 for the root job;
each consumed result decrements it once and each `"dir"` child of a
successful result increments it once while enqueueing one job; along any
cancellation-free schedule it always equals the number of
enqueued-but-unconsumed jobs plus in-flight results, so it reaches zero
exactly when no listing work is outstanding, at which point the loop exit
step sets the return value and closes the job queue. -/
theorem crawl_pending_invariant (L : Nat → Except ApiErr (List File)) (N root : Nat)
    (acts : List Act) (hnc : Act.cancel ∉ acts) :
    (initState root).pending = 1 ∧
    counterInv (crawlRun L N (initState root) acts) ∧
    (∀ s : CrawlState, counterInv s →
      (s.pending = 0 ↔ s.queue = [] ∧ s.taken = [] ∧ s.ready = [] ∧ s.buf = [])) ∧
    (∀ s : CrawlState, s.retv = none → s.pending = 0 →
      (crawlStep L N s .exitLoop).retv ≠ none ∧
        (crawlStep L N s .exitLoop).jobsClosed = true) ∧
    (∀ (s : CrawlState) (r : CrawlResult) (b : List CrawlResult),
      s.retv = none → 0 < s.pending → s.buf = r :: b → r.err = none →
      (crawlStep L N s .recv).pending = s.pending - 1 + (dirChildren r.files).length ∧
        (crawlStep L N s .recv).queue = s.queue ++ dirChildren r.files) := by
  refine ⟨rfl, counterInv_run L N acts _ hnc rfl rfl, ?_, ?_, ?_⟩
  · intro s h
    unfold counterInv at h
    constructor
    · intro h0
      rw [h0] at h
      refine ⟨List.length_eq_zero.mp ?_, List.length_eq_zero.mp ?_,
        List.length_eq_zero.mp ?_, List.length_eq_zero.mp ?_⟩ <;> omega
    · rintro ⟨h1, h2, h3, h4⟩
      rw [h, h1, h2, h3, h4]
      rfl
  · intro s hr h0
    simp [crawlStep, hr, h0]
  · intro s r b hr hp hb herr
    simp [crawlStep, hr, hp, hb, herr]

/-- Witness for C3: the counter invariant holds along the completed crawl of
the concrete two-directory tree, whose initial counter is 1. -/
theorem crawl_pending_invariant_witness :
    (initState 1).pending = 1 ∧
    counterInv (crawlRun (fun d => .ok (listingsABC d)) 5 (initState 1) actsABC) := by
  obtain ⟨h1, h2, _⟩ :=
    crawl_pending_invariant (fun d => .ok (listingsABC d)) 5 1 actsABC (by decide)
  exact ⟨h1, h2⟩

/-- Once recorded, the first error survives every step (`if firstErr == nil`
is the only write). -/
lemma crawlStep_firstErr_persist (L : Nat → Except ApiErr (List File)) (N : Nat)
    (s : CrawlState) (a : Act) (e : ApiErr) (h : s.firstErr = some e) :
    (crawlStep L N s a).firstErr = some e := by
  cases a <;> (simp only [crawlStep]; repeat' split) <;> simp_all

/-- The fail-fast invariant is preserved by every non-cancel step. -/
lemma firstErrInv_step (L : Nat → Except ApiErr (List File)) (N : Nat)
    (s : CrawlState) (a : Act) (ha : a ≠ .cancel) (h : FirstErrInv s) :
    FirstErrInv (crawlStep L N s a) := by
  obtain ⟨hc, hret⟩ := h
  obtain ⟨hdj, hdr, hrc, hlc⟩ := crawlStep_noCancel_noops L N s hc
  refine ⟨by rw [crawlStep_cancelled L N s a ha]; exact hc, ?_⟩
  cases a
  case cancel => exact absurd rfl ha
  case dropJob i => rw [hdj]; exact hret
  case dropRes i => rw [hdr]; exact hret
  case recvCancel k => rw [hrc]; exact hret
  case loopCancel => rw [hlc]; exact hret
  case take =>
    have hu : (crawlStep L N s .take).retv = s.retv ∧
        (crawlStep L N s .take).firstErr = s.firstErr := by
      simp only [crawlStep]
      repeat' split
      all_goals exact ⟨rfl, rfl⟩
    intro v e hv he
    rw [hu.1] at hv
    rw [hu.2] at he
    exact hret v e hv he
  case dispatch i =>
    have hu : (crawlStep L N s (.dispatch i)).retv = s.retv ∧
        (crawlStep L N s (.dispatch i)).firstErr = s.firstErr := by
      simp only [crawlStep]
      repeat' split
      all_goals exact ⟨rfl, rfl⟩
    intro v e hv he
    rw [hu.1] at hv
    rw [hu.2] at he
    exact hret v e hv he
  case publish i =>
    have hu : (crawlStep L N s (.publish i)).retv = s.retv ∧
        (crawlStep L N s (.publish i)).firstErr = s.firstErr := by
      simp only [crawlStep]
      repeat' split
      all_goals exact ⟨rfl, rfl⟩
    intro v e hv he
    rw [hu.1] at hv
    rw [hu.2] at he
    exact hret v e hv he
  case recv =>
    intro v e hv he
    revert hv he
    simp only [crawlStep]
    split
    · rename_i hg
      split
      · exact hret v e
      · split
        · intro hv he
          exact absurd hv (by simp [hg.1])
        · intro hv he
          exact absurd hv (by simp [hg.1])
    · exact hret v e
  case exitLoop =>
    intro v e hv he
    revert hv he
    simp only [crawlStep]
    split
    · rename_i hg
      intro hv he
      have he' : s.firstErr = some e := he
      have hv' : some ((match s.firstErr with
          | some e0 => Except.error e0
          | none => Except.ok s.acc : Except ApiErr (List File))) = some v := hv
      rw [he'] at hv'
      exact (Option.some.inj hv').symm
    · exact hret v e

/-- The fail-fast invariant is preserved by every cancellation-free schedule. -/
lemma firstErrInv_run (L : Nat → Except ApiErr (List File)) (N : Nat) :
    ∀ (acts : List Act) (s : CrawlState), Act.cancel ∉ acts →
      FirstErrInv s → FirstErrInv (crawlRun L N s acts) := by
  intro acts
  induction acts with
  | nil => intro s _ h; exact h
  | cons a acts ih =>
    intro s hnc h
    have ha : a ≠ .cancel := fun he => hnc (by simp [he])
    rw [crawlRun]
    exact ih _ (fun hmem => hnc (by simp [hmem])) (firstErrInv_step L N s a ha h)

/-- Claim C2: along any cancellation-free schedule, the first error consumed
by the control loop is recorded in `firstErr` when none was recorded yet and
is never overwritten afterwards; an error result leaves the accumulated
output untouched; and whenever the crawl returns with an error recorded, it
returns exactly that first error — the `Except.error` return carries no
entries, so a partial entry set is never passed off as a success. -/
theorem crawl_first_error (L : Nat → Except ApiErr (List File)) (N root : Nat)
    (acts : List Act) (hnc : Act.cancel ∉ acts) :
    (∀ v e, (crawlRun L N (initState root) acts).retv = some v →
      (crawlRun L N (initState root) acts).firstErr = some e → v = .error e) ∧
    (∀ (s : CrawlState) (r : CrawlResult) (b : List CrawlResult) (e : ApiErr),
      s.retv = none → 0 < s.pending → s.buf = r :: b → r.err = some e →
      (s.firstErr = none → (crawlStep L N s .recv).firstErr = some e) ∧
      (∀ e0, s.firstErr = some e0 → (crawlStep L N s .recv).firstErr = some e0) ∧
      (crawlStep L N s .recv).acc = s.acc) ∧
    (∀ (s : CrawlState) (a : Act) (e : ApiErr), s.firstErr = some e →
      (crawlStep L N s a).firstErr = some e) := by
  refine ⟨?_, ?_, fun s a e => crawlStep_firstErr_persist L N s a e⟩
  · intro v e hv he
    exact (firstErrInv_run L N acts _ hnc
      ⟨rfl, fun v e hv _ => by simp [initState] at hv⟩).2 v e hv he
  · intro s r b e hr hp hb herr
    exact ⟨fun hf => by simp [crawlStep, hr, hp, hb, herr, hf],
      fun e0 hf => by simp [crawlStep, hr, hp, hb, herr, hf],
      by simp [crawlStep, hr, hp, hb, herr]⟩

/-- Witness for C2: the fail-fast scenario — a root with 9 subdirectories
whose 7th listing fails with an APIError — completes with
`(empty, APIError)`, the recorded first error. -/
theorem crawl_first_error_witness :
    (crawlRun listingsFailFast 5 (initState 1) actsFailFast).retv =
      some (.error (.apiError 500 [66])) ∧
    (Except.error (.apiError 500 [66]) : Except ApiErr (List File)) =
      .error (.apiError 500 [66]) :=
  ⟨by rfl,
    (crawl_first_error listingsFailFast 5 1 actsFailFast (by decide)).1
      (.error (.apiError 500 [66])) (.apiError 500 [66]) (by rfl) (by rfl)⟩

/-- The return-value invariant is preserved by every step, cancellation
included. -/
lemma retvInv_step (L : Nat → Except ApiErr (List File)) (N : Nat)
    (s : CrawlState) (a : Act) (h : RetvInv s) : RetvInv (crawlStep L N s a) := by
  cases a
  case cancel => exact fun v hv => h v hv
  case take =>
    intro v hv
    revert hv
    simp only [crawlStep]
    repeat' split
    all_goals exact fun hv => h v hv
  case dropJob i =>
    intro v hv
    revert hv
    simp only [crawlStep]
    repeat' split
    all_goals exact fun hv => h v hv
  case dropRes i =>
    intro v hv
    revert hv
    simp only [crawlStep]
    repeat' split
    all_goals exact fun hv => h v hv
  case dispatch i =>
    intro v hv
    revert hv
    simp only [crawlStep]
    repeat' split
    all_goals exact fun hv => h v hv
  case publish i =>
    intro v hv
    revert hv
    simp only [crawlStep]
    repeat' split
    all_goals exact fun hv => h v hv
  case recv =>
    intro v hv
    revert hv
    simp only [crawlStep]
    split
    · rename_i hg
      split
      · exact fun hv => h v hv
      · split
        · exact fun hv => absurd (show s.retv = some v from hv) (by simp [hg.1])
        · exact fun hv => absurd (show s.retv = some v from hv) (by simp [hg.1])
    · exact fun hv => h v hv
  case recvCancel k =>
    intro v hv
    revert hv
    simp only [crawlStep]
    split
    · split
      · exact fun hv => h v hv
      · split
        · exact fun hv => h v hv
        · split
          · exact fun hv => Or.inl (Option.some.inj hv).symm
          · exact fun hv => h v hv
    · exact fun hv => h v hv
  case loopCancel =>
    intro v hv
    revert hv
    simp only [crawlStep]
    split
    · exact fun hv => Or.inl (Option.some.inj hv).symm
    · exact fun hv => h v hv
  case exitLoop =>
    intro v hv
    revert hv
    simp only [crawlStep]
    split
    · rename_i hg
      exact fun _ => Or.inr hg.2
    · exact fun hv => h v hv

/-- The return-value invariant is preserved by every schedule. -/
lemma retvInv_run (L : Nat → Except ApiErr (List File)) (N : Nat) :
    ∀ (acts : List Act) (s : CrawlState), RetvInv s → RetvInv (crawlRun L N s acts) := by
  intro acts
  induction acts with
  | nil => intro s h; exact h
  | cons a acts ih =>
    intro s h
    rw [crawlRun]
    exact ih _ (retvInv_step L N s a h)

/-- Counterexample to claim C4 as stated: the crawl of a one-file tree is
cancelled mid-run (its return value is still unset when the signal fires),
yet — the control loop's `select` having both branches ready and picking the
`results` branch — it drains to `pending = 0` and returns the successful
entry list, not a cancellation error. -/
theorem crawl_cancel_counterexample :
    (crawlRun listingsOnlyB 5 (initState 1)
      [.take, .dispatch 0, .publish 0, .cancel]).retv = none ∧
    (crawlRun listingsOnlyB 5 (initState 1)
      [.take, .dispatch 0, .publish 0, .cancel]).cancelled = true ∧
    (crawlRun listingsOnlyB 5 (initState 1) actsCancelRace).cancelled = true ∧
    (crawlRun listingsOnlyB 5 (initState 1) actsCancelRace).retv =
      some (.ok [fileB]) :=
  ⟨rfl, rfl, rfl, rfl⟩

/-- Claim C4, amended: a cancelled crawl returns the cancellation error
unless its pending counter has reached zero (everything already drained), in
which case it may return the normal result; a worker never dispatches a
listing call nor publishes a result once it observes cancellation (both
actions are disabled in a cancelled state); and after cancellation nothing
blocks — the control loop can always return the cancellation error, and every
worker holding a job or an unconsumed result can always drop it and exit. -/
theorem crawl_cancel_amended (L : Nat → Except ApiErr (List File)) (N root : Nat) :
    (∀ (acts : List Act) (v : Except ApiErr (List File)),
      (crawlRun L N (initState root) acts).retv = some v →
      v = .error .cancelled ∨ (crawlRun L N (initState root) acts).pending = 0) ∧
    (∀ (s : CrawlState) (i : Nat), s.cancelled = true →
      crawlStep L N s (.dispatch i) = s ∧ crawlStep L N s (.publish i) = s) ∧
    (∀ s : CrawlState, s.cancelled = true → s.retv = none → 0 < s.pending →
      (crawlStep L N s .loopCancel).retv = some (.error .cancelled)) ∧
    (∀ (s : CrawlState) (i : Nat), s.cancelled = true → i < s.taken.length →
      (crawlStep L N s (.dropJob i)).taken.length + 1 = s.taken.length) ∧
    (∀ (s : CrawlState) (i : Nat), s.cancelled = true → i < s.ready.length →
      (crawlStep L N s (.dropRes i)).ready.length + 1 = s.ready.length) := by
  refine ⟨?_, ?_, ?_, ?_, ?_⟩
  · intro acts v hv
    exact retvInv_run L N acts _ (fun v hv => by simp [initState] at hv) v hv
  · intro s i hcanc
    constructor <;> simp [crawlStep, hcanc]
  · intro s hcanc hr hp
    simp [crawlStep, hcanc, hr, hp]
  · intro s i hcanc hi
    simp [crawlStep, hcanc, hi, List.length_eraseIdx]
    omega
  · intro s i hcanc hi
    simp [crawlStep, hcanc, hi, List.length_eraseIdx]
    omega

/-- Witness for the amended C4: in the counterexample run the crawl returned
a value with `pending = 0` (the right disjunct), and in the cancelled state
just after `[.take, .cancel]` the dispatch action is a no-op. -/
theorem crawl_cancel_amended_witness :
    ((Except.ok [fileB] : Except ApiErr (List File)) = .error .cancelled ∨
      (crawlRun listingsOnlyB 5 (initState 1) actsCancelRace).pending = 0) ∧
    crawlStep listingsOnlyB 5 (crawlRun listingsOnlyB 5 (initState 1) [.take, .cancel])
        (.dispatch 0) =
      crawlRun listingsOnlyB 5 (initState 1) [.take, .cancel] := by
  obtain ⟨h1, h2, _⟩ := crawl_cancel_amended listingsOnlyB 5 1
  exact ⟨h1 actsCancelRace (.ok [fileB]) (by rfl),
    (h2 (crawlRun listingsOnlyB 5 (initState 1) [.take, .cancel]) 0 (by rfl)).1⟩

/-- A list is a permutation of the element at a valid index consed onto the
list with that index erased. -/
lemma perm_cons_eraseIdx {α : Type} (l : List α) :
    ∀ (i : Nat) (a : α), l[i]? = some a → l.Perm (a :: l.eraseIdx i) := by
  induction l with
  | nil => intro i a hi; simp at hi
  | cons x xs ih =>
    intro i a hi
    cases i with
    | zero =>
      simp at hi
      subst hi
      simp [List.eraseIdx]
    | succ n =>
      simp only [List.getElem?_cons_succ] at hi
      have hp := ih n a hi
      have : (x :: xs).eraseIdx (n + 1) = x :: xs.eraseIdx n := rfl
      rw [this]
      exact (hp.cons x).trans (List.Perm.swap a x _)

/-- The recursive sequential listing does not depend on the fuel, once the
fuel exceeds the directory's measure. -/
lemma seqList_stable (listings : Nat → List File) (m : Nat → Nat)
    (hm : ∀ d f, f ∈ listings d → f.type = "dir" → m f.id < m d) :
    ∀ (fuel₁ fuel₂ d : Nat), m d < fuel₁ → m d < fuel₂ →
      seqList listings fuel₁ d = seqList listings fuel₂ d := by
  intro fuel₁
  induction fuel₁ with
  | zero => intro fuel₂ d h1 _; exact absurd h1 (Nat.not_lt_zero _)
  | succ a ih =>
    intro fuel₂ d h1 h2
    cases fuel₂ with
    | zero => exact absurd h2 (Nat.not_lt_zero _)
    | succ b =>
      simp only [seqList]
      congr 1
      apply List.flatMap_congr
      intro f hf
      have hmem := (List.mem_filter.mp hf).1
      have hdir : f.type = "dir" := by
        have := (List.mem_filter.mp hf).2
        simpa using this
      have hlt := hm d f hmem hdir
      exact ih b f.id (by omega) (by omega)

/-- One unrolling of the sequential subtree listing: the directory's own
children followed by the subtrees of its `"dir"` children. -/
lemma subtreeList_unroll (listings : Nat → List File) (m : Nat → Nat)
    (hm : ∀ d f, f ∈ listings d → f.type = "dir" → m f.id < m d) (d : Nat) :
    subtreeList listings m d =
      listings d ++
        (dirChildren (listings d)).flatMap (fun j => subtreeList listings m j.dirID) := by
  unfold subtreeList dirChildren
  rw [seqList]
  simp only [List.flatMap_map]
  congr 1
  apply List.flatMap_congr
  intro f hf
  have hmem := (List.mem_filter.mp hf).1
  have hdir : f.type = "dir" := by
    have := (List.mem_filter.mp hf).2
    simpa using this
  have hlt := hm d f hmem hdir
  exact seqList_stable listings m hm (m d) (m f.id + 1) f.id (by omega) (by omega)

/-- Value of `jobsMass` on an empty job list. -/
lemma jobsMass_nil (listings : Nat → List File) (m : Nat → Nat) :
    jobsMass listings m [] = 0 := rfl

/-- Value of `jobsMass` on a cons. -/
lemma jobsMass_cons (listings : Nat → List File) (m : Nat → Nat) (j : Job) (js : List Job) :
    jobsMass listings m (j :: js) =
      ((subtreeList listings m j.dirID : List File) : Multiset File) +
        jobsMass listings m js := by
  simp [jobsMass]

/-- Additivity: `jobsMass` distributes over append. -/
lemma jobsMass_append (listings : Nat → List File) (m : Nat → Nat) (a b : List Job) :
    jobsMass listings m (a ++ b) = jobsMass listings m a + jobsMass listings m b := by
  simp [jobsMass, List.sum_append]

/-- Invariance: `jobsMass` only depends on the jobs up to permutation. -/
lemma jobsMass_perm (listings : Nat → List File) (m : Nat → Nat) {a b : List Job}
    (h : a.Perm b) : jobsMass listings m a = jobsMass listings m b :=
  List.Perm.sum_eq (h.map _)

/-- Value of `resMass` on an empty result list. -/
lemma resMass_nil (listings : Nat → List File) (m : Nat → Nat) :
    resMass listings m [] = 0 := rfl

/-- Value of `resMass` on a cons. -/
lemma resMass_cons (listings : Nat → List File) (m : Nat → Nat) (r : CrawlResult)
    (rs : List CrawlResult) :
    resMass listings m (r :: rs) =
      ((r.files : Multiset File) + jobsMass listings m (dirChildren r.files)) +
        resMass listings m rs := by
  simp [resMass]

/-- Additivity: `resMass` distributes over append. -/
lemma resMass_append (listings : Nat → List File) (m : Nat → Nat) (a b : List CrawlResult) :
    resMass listings m (a ++ b) = resMass listings m a + resMass listings m b := by
  simp [resMass, List.sum_append]

/-- Invariance: `resMass` only depends on the results up to permutation. -/
lemma resMass_perm (listings : Nat → List File) (m : Nat → Nat) {a b : List CrawlResult}
    (h : a.Perm b) : resMass listings m a = resMass listings m b :=
  List.Perm.sum_eq (h.map _)

/-- Flattening the subtrees of a job list yields its `jobsMass`. -/
lemma coe_flatMap_jobs (listings : Nat → List File) (m : Nat → Nat) (js : List Job) :
    ((js.flatMap (fun j => subtreeList listings m j.dirID) : List File) : Multiset File) =
      jobsMass listings m js := by
  induction js with
  | nil => rfl
  | cons j js ih =>
    rw [List.flatMap_cons, ← Multiset.coe_add, ih, jobsMass_cons]

/-- The multiset form of the subtree unrolling: a directory's subtree is its
own listing plus the mass of the jobs its `"dir"` children spawn. -/
lemma subtreeMass_unroll (listings : Nat → List File) (m : Nat → Nat)
    (hm : ∀ d f, f ∈ listings d → f.type = "dir" → m f.id < m d) (d : Nat) :
    ((subtreeList listings m d : List File) : Multiset File) =
      ((listings d : List File) : Multiset File) +
        jobsMass listings m (dirChildren (listings d)) := by
  rw [subtreeList_unroll listings m hm d, ← Multiset.coe_add, coe_flatMap_jobs]

/-- The error-free crawl invariant is preserved by every non-cancel step. -/
lemma seqInv_step (listings : Nat → List File) (m : Nat → Nat) (root : Nat)
    (hm : ∀ d f, f ∈ listings d → f.type = "dir" → m f.id < m d)
    (N : Nat) (s : CrawlState) (a : Act) (ha : a ≠ .cancel)
    (h : SeqInv listings m root s) :
    SeqInv listings m root (crawlStep (fun d => .ok (listings d)) N s a) := by
  obtain ⟨hcnt, hmass, herrs, hferr, hnc, hret⟩ := h
  obtain ⟨hdj, hdr, hrc, hlc⟩ :=
    crawlStep_noCancel_noops (fun d => .ok (listings d)) N s hnc
  cases a
  case cancel => exact absurd rfl ha
  case dropJob i => rw [hdj]; exact ⟨hcnt, hmass, herrs, hferr, hnc, hret⟩
  case dropRes i => rw [hdr]; exact ⟨hcnt, hmass, herrs, hferr, hnc, hret⟩
  case recvCancel k => rw [hrc]; exact ⟨hcnt, hmass, herrs, hferr, hnc, hret⟩
  case loopCancel => rw [hlc]; exact ⟨hcnt, hmass, herrs, hferr, hnc, hret⟩
  case take =>
    simp only [crawlStep]
    split
    · exact ⟨hcnt, hmass, herrs, hferr, hnc, hret⟩
    · rename_i j q hq
      split
      · refine ⟨?_, ?_, herrs, hferr, hnc, hret⟩
        · unfold counterInv at hcnt ⊢
          rw [hq] at hcnt
          simp only [List.length_cons] at hcnt
          simp only [List.length_append, List.length_cons, List.length_nil]
          omega
        · unfold crawlMass at hmass ⊢
          rw [hq] at hmass
          rw [← hmass]
          simp only [jobsMass_append, jobsMass_cons, jobsMass_nil, List.cons_append]
          abel
      · exact ⟨hcnt, hmass, herrs, hferr, hnc, hret⟩
  case dispatch i =>
    simp only [crawlStep]
    split
    · exact ⟨hcnt, hmass, herrs, hferr, hnc, hret⟩
    · split
      · exact ⟨hcnt, hmass, herrs, hferr, hnc, hret⟩
      · rename_i j hj
        have hij : i < s.taken.length := (List.getElem?_eq_some.mp hj).1
        have hperm := perm_cons_eraseIdx s.taken i j hj
        have hjm : jobsMass listings m s.taken =
            ((subtreeList listings m j.dirID : List File) : Multiset File) +
              jobsMass listings m (s.taken.eraseIdx i) := by
          rw [jobsMass_perm listings m hperm, jobsMass_cons]
        have hres : resMass listings m [mkResult (fun d => .ok (listings d)) j] =
            ((subtreeList listings m j.dirID : List File) : Multiset File) := by
          simp [resMass, mkResult]
          exact (subtreeMass_unroll listings m hm j.dirID).symm
        refine ⟨?_, ?_, ?_, hferr, hnc, hret⟩
        · unfold counterInv at hcnt ⊢
          have hlen : (s.taken.eraseIdx i).length = s.taken.length - 1 := by
            simp [List.length_eraseIdx, hij]
          simp only [List.length_append, List.length_cons, List.length_nil, hlen]
          omega
        · unfold crawlMass at hmass ⊢
          rw [← hmass]
          simp only [jobsMass_append, resMass_append, hres, hjm]
          abel
        · intro r hr
          simp only [List.mem_append, List.mem_singleton] at hr
          rcases hr with (hr | hr) | hr
          · exact herrs r (by simp [hr])
          · subst hr; rfl
          · exact herrs r (by simp [hr])
  case publish i =>
    simp only [crawlStep]
    split
    · exact ⟨hcnt, hmass, herrs, hferr, hnc, hret⟩
    · split
      · exact ⟨hcnt, hmass, herrs, hferr, hnc, hret⟩
      · rename_i r hr
        have hir : i < s.ready.length := (List.getElem?_eq_some.mp hr).1
        have hperm := perm_cons_eraseIdx s.ready i r hr
        have hrm : resMass listings m s.ready =
            (((r.files : List File) : Multiset File) +
                jobsMass listings m (dirChildren r.files)) +
              resMass listings m (s.ready.eraseIdx i) := by
          rw [resMass_perm listings m hperm, resMass_cons]
        refine ⟨?_, ?_, ?_, hferr, hnc, hret⟩
        · unfold counterInv at hcnt ⊢
          have hlen : (s.ready.eraseIdx i).length = s.ready.length - 1 := by
            simp [List.length_eraseIdx, hir]
          simp only [List.length_append, List.length_cons, List.length_nil, hlen]
          omega
        · unfold crawlMass at hmass ⊢
          rw [← hmass]
          simp only [resMass_append, resMass_cons, resMass_nil, hrm]
          abel
        · intro r' hr'
          simp only [List.mem_append, List.mem_singleton] at hr'
          rcases hr' with hr' | (hr' | hr')
          · exact herrs r' (List.mem_append_left _ (hperm.mem_iff.mpr (by simp [hr'])))
          · exact herrs r' (by simp [hr'])
          · subst hr'
            exact herrs r' (List.mem_append_left _ (hperm.mem_iff.mpr (by simp)))
  case recv =>
    simp only [crawlStep]
    split
    · rename_i hg
      split
      · exact ⟨hcnt, hmass, herrs, hferr, hnc, hret⟩
      · rename_i r b hb
        have hrnone : r.err = none := herrs r (by simp [hb])
        split
        · rename_i e he
          exact absurd he (by simp [hrnone])
        · refine ⟨?_, ?_, ?_, hferr, hnc, hret⟩
          · unfold counterInv at hcnt ⊢
            rw [hb] at hcnt
            simp only [List.length_cons] at hcnt
            simp only [List.length_append]
            omega
          · unfold crawlMass at hmass ⊢
            rw [hb] at hmass
            rw [← hmass]
            simp only [jobsMass_append, resMass_append, resMass_cons, resMass_nil,
              ← Multiset.coe_add]
            abel
          · intro r' hr'
            rcases List.mem_append.mp hr' with hr' | hr'
            · exact herrs r' (List.mem_append_left _ hr')
            · refine herrs r' (List.mem_append_right _ ?_)
              rw [hb]
              exact List.mem_cons_of_mem _ hr'
    · exact ⟨hcnt, hmass, herrs, hferr, hnc, hret⟩
  case exitLoop =>
    simp only [crawlStep]
    split
    · rename_i hg
      obtain ⟨hrv, hp0⟩ := hg
      have hempty : s.queue = [] ∧ s.taken = [] ∧ s.ready = [] ∧ s.buf = [] := by
        unfold counterInv at hcnt
        rw [hp0] at hcnt
        exact ⟨List.length_eq_zero.mp (by omega), List.length_eq_zero.mp (by omega),
          List.length_eq_zero.mp (by omega), List.length_eq_zero.mp (by omega)⟩
      have hacc : ((s.acc : List File) : Multiset File) =
          ((subtreeList listings m root : List File) : Multiset File) := by
        unfold crawlMass at hmass
        rw [hempty.1, hempty.2.1, hempty.2.2.1, hempty.2.2.2] at hmass
        simpa [jobsMass_nil, resMass_nil] using hmass
      refine ⟨hcnt, hmass, herrs, hferr, hnc, ?_⟩
      intro v hv
      have hv' : some ((match s.firstErr with
          | some e => Except.error e
          | none => Except.ok s.acc : Except ApiErr (List File))) = some v := hv
      rw [hferr] at hv'
      exact ⟨s.acc, (Option.some.inj hv').symm, hacc⟩
    · exact ⟨hcnt, hmass, herrs, hferr, hnc, hret⟩

/-- The error-free crawl invariant is preserved by every cancellation-free
schedule. -/
lemma seqInv_run (listings : Nat → List File) (m : Nat → Nat) (root : Nat)
    (hm : ∀ d f, f ∈ listings d → f.type = "dir" → m f.id < m d) (N : Nat) :
    ∀ (acts : List Act) (s : CrawlState), Act.cancel ∉ acts →
      SeqInv listings m root s →
      SeqInv listings m root (crawlRun (fun d => .ok (listings d)) N s acts) := by
  intro acts
  induction acts with
  | nil => intro s _ h; exact h
  | cons a acts ih =>
    intro s hnc h
    have ha : a ≠ .cancel := fun he => hnc (by simp [he])
    rw [crawlRun]
    exact ih _ (fun hmem => hnc (by simp [hmem])) (seqInv_step listings m root hm N s a ha h)

/-- The initial crawl state satisfies the error-free invariant. -/
lemma seqInv_init (listings : Nat → List File) (m : Nat → Nat) (root : Nat) :
    SeqInv listings m root (initState root) := by
  refine ⟨by simp [counterInv, initState], ?_, ?_, rfl, rfl, ?_⟩
  · simp [crawlMass, initState, jobsMass_append, jobsMass_cons, jobsMass_nil, resMass_nil]
  · intro r hr
    simp [initState] at hr
  · intro v hv
    simp [initState] at hv

/-- Claim C1: on an acyclic tree with no listing errors, any completed crawl
— whatever the schedule and whatever the worker-pool size `N` — returns a
success whose entry list is a permutation of the sequential recursive listing
of every directory reachable from the root: no entry missing, none
duplicated, the root's own entry excluded.  The returned set is therefore
independent of `N`. -/
theorem crawl_seq_equiv (listings : Nat → List File) (m : Nat → Nat)
    (hm : ∀ d f, f ∈ listings d → f.type = "dir" → m f.id < m d)
    (N root : Nat) (acts : List Act) (hnc : Act.cancel ∉ acts)
    (v : Except ApiErr (List File))
    (hv : (crawlRun (fun d => .ok (listings d)) N (initState root) acts).retv = some v) :
    ∃ out, v = .ok out ∧ out.Perm (subtreeList listings m root) := by
  obtain ⟨out, hout, hperm⟩ :=
    (seqInv_run listings m root hm N acts _ hnc (seqInv_init listings m root)).ret v hv
  exact ⟨out, hout, Multiset.coe_eq_coe.mp hperm⟩

/-- The measure `measureABC` witnesses acyclicity of `listingsABC`. -/
lemma measureABC_ok :
    ∀ d f, f ∈ listingsABC d → f.type = "dir" → measureABC f.id < measureABC d := by
  intro d f hf ht
  unfold listingsABC at hf
  split at hf
  · rename_i h1
    subst h1
    simp [fileA, fileB] at hf
    rcases hf with rfl | rfl
    · decide
    · exact absurd ht (by decide)
  · split at hf
    · rename_i h2
      subst h2
      simp [fileC] at hf
      subst hf
      exact absurd ht (by decide)
    · simp at hf

/-- Witness for C1: the concrete two-directory tree crawled with pool sizes
1, 5 and 10 under the same completing schedule returns the same entry list
`[A, B, C]`, which is a permutation of the sequential listing and totals
2000 bytes. -/
theorem crawl_seq_equiv_witness :
    (Act.cancel ∉ actsABC) ∧
    (crawlRun (fun d => .ok (listingsABC d)) 1 (initState 1) actsABC).retv =
      some (.ok [fileA, fileB, fileC]) ∧
    (crawlRun (fun d => .ok (listingsABC d)) 5 (initState 1) actsABC).retv =
      some (.ok [fileA, fileB, fileC]) ∧
    (crawlRun (fun d => .ok (listingsABC d)) 10 (initState 1) actsABC).retv =
      some (.ok [fileA, fileB, fileC]) ∧
    (∃ out, (Except.ok [fileA, fileB, fileC] : Except ApiErr (List File)) = .ok out ∧
      out.Perm (subtreeList listingsABC measureABC 1)) ∧
    subtreeList listingsABC measureABC 1 = [fileA, fileB, fileC] ∧
    totalSize [fileA, fileB, fileC] = 2000 := by
  refine ⟨by decide, by rfl, by rfl, by rfl, ?_, by rfl, by rfl⟩
  exact crawl_seq_equiv listingsABC measureABC measureABC_ok 5 1 actsABC (by decide)
    (.ok [fileA, fileB, fileC]) (by rfl)

end Ktools
